import Mathlib

/-!
Verification of the clang-format-hook program (src/clang-format-hook.cpp).

The C++ program is shallowly embedded: pure logic is translated to Lean
functions; interaction with the operating system (filesystem queries,
`popen`, file reads) is modelled by explicit environment parameters; the
OpenMP parallel loop is modelled both sequentially (for the exit-code
aggregation) and by an interleaving semantics over atomic events (for the
concurrency claims); C++ exceptions become `Except` errors.
-/

namespace ClangFormatHook

/-- A model of the filesystem subtree visible to the traversal.  The C++
code only queries `is_directory`, `directory_iterator` (child list in
iteration order), `has_extension` and `extension`, so a node is either a
directory with an ordered list of children or a non-directory entry
carrying its path string and the extension that `std::filesystem` would
report (`none` when `has_extension()` is false). -/
inductive FsEntry where
  | file (path : String) (ext : Option String)
  | dir (path : String) (children : List FsEntry)
deriving Repr

mutual

/-- Size of one filesystem entry (termination measure for the work-list). -/
def entrySize : FsEntry → Nat
  | .file _ _ => 1
  | .dir _ children => 1 + entryListSize children

/-- Total size of a list of filesystem entries. -/
def entryListSize : List FsEntry → Nat
  | [] => 0
  | e :: rest => entrySize e + entryListSize rest

end

theorem entryListSize_append (l₁ l₂ : List FsEntry) :
    entryListSize (l₁ ++ l₂) = entryListSize l₁ + entryListSize l₂ := by
  induction l₁ with
  | nil => simp [entryListSize]
  | cons e rest ih => simp [entryListSize, ih]; omega

theorem entryListSize_reverse (l : List FsEntry) :
    entryListSize l.reverse = entryListSize l := by
  induction l with
  | nil => rfl
  | cons e rest ih =>
    simp [entryListSize, List.reverse_cons, entryListSize_append, ih]; omega

/-- The extension test from `listSrcFiles`: the entry has an extension and
it is `".cpp"` or `".h"`. -/
def extAllowed : Option String → Bool
  | some e => e = ".cpp" || e = ".h"
  | none => false

/-- The work-list loop of `listSrcFiles`.  The head of the list models the
back of the C++ `to_process` vector (the stack top): popping takes the
head, and pushing the children `c₁ … cₙ` with `push_back` makes `cₙ` the
new top, hence `children.reverse ++ rest`.  A matching file is appended at
the back of `src_files` (`acc ++ [p]`). -/
def listSrcFilesLoop : List FsEntry → List String → List String
  | [], acc => acc
  | .file p ext :: rest, acc =>
      listSrcFilesLoop rest (if extAllowed ext then acc ++ [p] else acc)
  | .dir _ children :: rest, acc =>
      listSrcFilesLoop (children.reverse ++ rest) acc
termination_by stack _ => entryListSize stack
decreasing_by
  all_goals
    simp [entryListSize, entrySize, entryListSize_append, entryListSize_reverse]

/-- `listSrcFiles` from the source: work-list traversal starting from the
single root entry. -/
def listSrcFiles (root : FsEntry) : List String :=
  listSrcFilesLoop [root] []

/-- `ReachesFile t p e` holds when a non-directory entry with path `p` and
extension `e` is reachable from `t` (it is `t` itself, or lies under one of
the directories below `t`). -/
inductive ReachesFile : FsEntry → String → Option String → Prop where
  | here (p : String) (e : Option String) : ReachesFile (.file p e) p e
  | child (p : String) (cs : List FsEntry) (c : FsEntry) (q : String)
      (e : Option String) (hc : c ∈ cs) (h : ReachesFile c q e) :
      ReachesFile (.dir p cs) q e

theorem reachesFile_file_iff (p q : String) (e e' : Option String) :
    ReachesFile (.file p e) q e' ↔ q = p ∧ e' = e := by
  constructor
  · intro h; cases h; exact ⟨rfl, rfl⟩
  · rintro ⟨rfl, rfl⟩; exact .here _ _

theorem reachesFile_dir_iff (p : String) (cs : List FsEntry) (q : String)
    (e : Option String) :
    ReachesFile (.dir p cs) q e ↔ ∃ c ∈ cs, ReachesFile c q e := by
  constructor
  · intro h; cases h with
    | child _ _ c _ _ hc h => exact ⟨c, hc, h⟩
  · rintro ⟨c, hc, h⟩; exact .child p cs c q e hc h

/-- Work-list loop invariant: a path is in the loop's result exactly when
it is already accumulated or some entry still on the stack reaches a
non-directory file with that path and an allowed extension. -/
theorem mem_listSrcFilesLoop (stack : List FsEntry) (acc : List String)
    (q : String) :
    q ∈ listSrcFilesLoop stack acc ↔
      q ∈ acc ∨ ∃ t ∈ stack, ∃ e, ReachesFile t q e ∧ extAllowed e = true := by
  induction stack, acc using listSrcFilesLoop.induct with
  | case1 acc =>
    simp [listSrcFilesLoop]
  | case2 p ext rest acc ih =>
    rw [listSrcFilesLoop]
    by_cases hall : extAllowed ext = true
    · rw [if_pos hall]
      rw [dif_pos hall] at ih
      rw [ih]
      simp only [List.mem_append, List.mem_singleton, List.mem_cons]
      constructor
      · rintro ((hq | rfl | hnil) | ⟨t, ht, e, hr, he⟩)
        · exact Or.inl hq
        · exact Or.inr ⟨.file q ext, Or.inl rfl, ext, .here _ _, hall⟩
        · exact absurd hnil (List.not_mem_nil q)
        · exact Or.inr ⟨t, Or.inr ht, e, hr, he⟩
      · rintro (hq | ⟨t, rfl | ht, e, hr, he⟩)
        · exact Or.inl (Or.inl hq)
        · rw [reachesFile_file_iff] at hr
          exact Or.inl (Or.inr (Or.inl hr.1))
        · exact Or.inr ⟨t, ht, e, hr, he⟩
    · rw [if_neg hall]
      rw [dif_neg hall] at ih
      rw [ih]
      simp only [List.mem_cons]
      constructor
      · rintro (hq | ⟨t, ht, e, hr, he⟩)
        · exact Or.inl hq
        · exact Or.inr ⟨t, Or.inr ht, e, hr, he⟩
      · rintro (hq | ⟨t, rfl | ht, e, hr, he⟩)
        · exact Or.inl hq
        · rw [reachesFile_file_iff] at hr
          rcases hr with ⟨rfl, rfl⟩
          exact absurd he hall
        · exact Or.inr ⟨t, ht, e, hr, he⟩
  | case3 p children rest acc ih =>
    rw [listSrcFilesLoop, ih]
    simp only [List.mem_append, List.mem_reverse, List.mem_cons]
    constructor
    · rintro (hq | ⟨t, hc | ht, e, hr, he⟩)
      · exact Or.inl hq
      · exact Or.inr ⟨.dir p children, Or.inl rfl, e, .child p children t q e hc hr, he⟩
      · exact Or.inr ⟨t, Or.inr ht, e, hr, he⟩
    · rintro (hq | ⟨t, rfl | ht, e, hr, he⟩)
      · exact Or.inl hq
      · rw [reachesFile_dir_iff] at hr
        rcases hr with ⟨c, hc, hr⟩
        exact Or.inr ⟨c, Or.inl hc, e, hr, he⟩
      · exact Or.inr ⟨t, Or.inr ht, e, hr, he⟩

/-- Result of one subprocess invocation (`CmdResult` in the source): the
captured standard-output text and the status reported by `pclose`. -/
structure CmdResult where
  output : String
  return_status : Int
deriving Repr, DecidableEq

/-- Model of the `popen` shell-spawning primitive.  Given the command
buffer built by `runCmdForOutput` (interpreted as a C string), the OS
either returns no stream (`popen` yields `NULL`) or a readable stream; for
a stream the model records its fully drained contents (the `fgets` loop
concatenates every chunk until end-of-stream) and the status that
`pclose` reports after awaiting the process. -/
inductive SpawnOutcome where
  | noStream
  | stream (output : String) (status : Int)

/-- The spawning environment: what `popen`/`fgets`/`pclose` do for a given
command buffer. -/
abbrev SpawnEnv := List Char → SpawnOutcome

/-- The bytes written by the copy loop of `runCmdForOutput`: for each
index `i` of the argument vector, the bytes of `args[i]`, followed by a
single `' '` when `i + 1 < args.size()`. -/
def buildCmdCore (args : List String) : List Char :=
  (List.range args.length).flatMap fun i =>
    (args.getD i "").data ++ if i + 1 < args.length then [' '] else []

/-- The full command buffer of `runCmdForOutput`: the copied bytes with
the final cell set to the NUL byte (`cmd.back() = 0`). -/
def buildCmd (args : List String) : List Char :=
  buildCmdCore args ++ [Char.ofNat 0]

/-- `runCmdForOutput` from the source.  An empty argument list returns the
default-constructed `CmdResult` early (its `return_status` is an
uninitialized `int` in C++; it is modelled as `0` — every claim about the
runner concerns non-empty argument lists).  A `NULL` stream from `popen`
raises `std::runtime_error("Unable to run " + cmd)`, modelled as
`Except.error`; otherwise the drained output and the `pclose` status form
the result. -/
def runCmdForOutput (spawn : SpawnEnv) (args : List String) :
    Except String CmdResult :=
  if args.isEmpty then
    .ok { output := "", return_status := 0 }
  else
    match spawn (buildCmd args) with
    | .noStream => .error ("Unable to run " ++ String.mk (buildCmd args).dropLast)
    | .stream out st => .ok { output := out, return_status := st }

/-- The file-read environment: `some contents` when the path can be opened
(`ifstream::is_open`), in which case the full byte content is read, and
`none` when opening fails. -/
abbrev ReadEnv := String → Option String

/-- `getFileFormatDiff` from the source: read the file (throwing
`"Unable to open src file …"` when the stream is not open), run the
formatter as `[clang_format_exe, file]`, and return: a message embedding
the return status and the invoked command when the status is nonzero, a
message naming the file when the captured output differs from the file
contents, and no verdict (`none`) when they agree byte for byte. -/
def getFileFormatDiff (readFile : ReadEnv) (spawn : SpawnEnv)
    (file : String) (clang_format_exe : String) :
    Except String (Option String) :=
  match readFile file with
  | none => .error ("Unable to open src file " ++ file)
  | some file_contents =>
    match runCmdForOutput spawn [clang_format_exe, file] with
    | .error e => .error e
    | .ok res =>
      if res.return_status ≠ 0 then
        .ok (some ("Got return code " ++ toString res.return_status ++
          " when executing " ++ clang_format_exe ++ " " ++ file))
      else if file_contents ≠ res.output then
        .ok (some (file ++ " changes when formatted."))
      else
        .ok none

/-- `Settings` from the source, with its default formatter name. -/
structure Settings where
  clang_format_exe : String := "clang-format"
  inputs : List String := []
deriving Repr, DecidableEq

/-- The text `printHelp` writes (to standard output): `std::setw(20)`
right-aligns the 18-character option string to width 20, then four spaces
precede the description. -/
def helpText (exe_name : String) : String :=
  "Usage: " ++ exe_name ++ " [options] <inputs>\n" ++
  "Checks the given inputs for code style changes\n" ++
  "\n" ++
  "Options:\n" ++
  "  -c, --clang-format    The clang-format executable to use\n"

/-- String comparison helper: `p` is an initial segment of `s` (stated on
the character lists so that it evaluates by `rfl`/`decide`). -/
def strIsPrefixOf (p s : String) : Bool :=
  p.data.isPrefixOf s.data

/-- Drop the first `n` characters of `s` (stated on the character list so
that it evaluates by `rfl`/`decide`). -/
def strDrop (s : String) (n : Nat) : String :=
  String.mk (s.data.drop n)

/-- Substring test: some suffix of `hay` starts with `needle` (stated on
character lists so that it evaluates by `decide`). -/
def strContainsSub (hay needle : String) : Bool :=
  (List.range (hay.data.length + 1)).any fun i =>
    needle.data.isPrefixOf (hay.data.drop i)

/-- Outcome of `parseSettings`: either a `Settings` value, or an
immediate `exit(code)` with the texts written to standard output and to
the error stream before exiting. -/
inductive ParseOutcome where
  | ok (settings : Settings)
  | exit (code : Int) (stdoutText : String) (stderrText : String)
deriving Repr, DecidableEq

/-- The `getopt_long` loop of `parseSettings`, modelled for the option
table in the source (one long option `--clang-format` / short `-c` with a
required argument, optstring `":c:"`): the option name may carry its value
in the next token or attached (`--clang-format=V`, `-cV`); `--` ends
option scanning; non-option tokens are collected as positional inputs
(GNU permutation keeps their relative order); any other token starting
with `-` is an unknown option (`'?'` case: message to the error stream,
help to standard output, `exit(1)`); an option at the end of the line with
no value is the `':'` case (message to the error stream, help to standard
output, `exit(1)`).  Long-option abbreviation matching is not modelled. -/
def parseLoop (exe_name : String) (cf : String) (positionals : List String) :
    List String → ParseOutcome
  | [] => .ok { clang_format_exe := cf, inputs := positionals }
  | a :: rest =>
    if a = "--" then
      .ok { clang_format_exe := cf, inputs := positionals ++ rest }
    else if a = "-c" ∨ a = "--clang-format" then
      match rest with
      | v :: rest' => parseLoop exe_name v positionals rest'
      | [] => .exit 1 (helpText exe_name)
          ("The option " ++ a ++ " requires an argument\n")
    else if strIsPrefixOf "--clang-format=" a then
      parseLoop exe_name (strDrop a "--clang-format=".length) positionals rest
    else if strIsPrefixOf "-c" a ∧ a ≠ "-c" then
      parseLoop exe_name (strDrop a 2) positionals rest
    else if strIsPrefixOf "-" a ∧ a ≠ "-" then
      .exit 1 (helpText exe_name) ("Unknown options " ++ a ++ "\n")
    else
      parseLoop exe_name cf (positionals ++ [a]) rest

/-- `parseSettings` from the source: run the option loop over the
arguments after the program name, starting from the default settings. -/
def parseSettings (exe_name : String) (args : List String) : ParseOutcome :=
  parseLoop exe_name "clang-format" [] args

/-- What one `printDiff` call writes to standard output under the lock.
`operator<<` for `std::filesystem::path` quotes the path (escaping of
embedded quotes is not modelled — no claim involves a path containing a
quote character). -/
def printDiffMsg (path diff : String) : String :=
  "File \"" ++ path ++ "\" needs formatting\n" ++ diff ++ "\n"

/-- Sequential model of the `#pragma omp parallel for` loop body applied
in array order: each file is checked once; a thrown exception (read
failure or launch failure) escapes `main` (`Except.error`); a non-empty
verdict sets the shared flag and appends the printed report. -/
def mainLoop (check : String → Except String (Option String)) :
    List String → Bool → String → Except String (Bool × String)
  | [], flag, out => .ok (flag, out)
  | f :: rest, flag, out =>
    match check f with
    | .error e => .error e
    | .ok none => mainLoop check rest flag out
    | .ok (some d) => mainLoop check rest true (out ++ printDiffMsg f d)

/-- Final outcome of one run of the program: a normal exit with the texts
written to standard output and the error stream, or an abort by an
uncaught C++ exception carrying its message. -/
inductive ProgOutcome where
  | exited (code : Int) (stdoutText : String) (stderrText : String)
  | aborted (msg : String)
deriving Repr, DecidableEq

/-- `main` from the source: parse the settings (an `exit(…)` inside
`parseSettings` ends the process), discover the source files under every
input in order, run the per-file check over the discovered list, and exit
with code 2 when any file needed formatting, 0 otherwise.  `resolve` maps
an input path string to the filesystem subtree it denotes. -/
def fullProgram (resolve : String → FsEntry) (readFile : ReadEnv)
    (spawn : SpawnEnv) (exe_name : String) (args : List String) :
    ProgOutcome :=
  match parseSettings exe_name args with
  | .exit code out err => .exited code out err
  | .ok settings =>
    let input_files := settings.inputs.flatMap fun p => listSrcFiles (resolve p)
    match mainLoop
        (fun f => getFileFormatDiff readFile spawn f settings.clang_format_exe)
        input_files false "" with
    | .error e => .aborted e
    | .ok (flag, out) => .exited (if flag then 2 else 0) out ""

/-! ### Concurrency model of the parallel fan-out

The body of the `#pragma omp parallel for` loop touches shared state in
at most four atomic steps per file: setting `inputs_need_formatting`,
acquiring `output_mutex` (inside `printDiff`), writing the report to
`std::cout`, and releasing the mutex.  A run of the parallel loop is any
interleaving of the workers' step sequences. -/

/-- One atomic action of a worker on the shared state. -/
inductive Event where
  | setFlag
  | lock
  | printOut (s : String)
  | unlock
deriving Repr, DecidableEq

/-- The atomic steps the loop body performs for file `f`, given the pure
per-file verdict `check` (the value of `getFileFormatDiff` in a run where
no exception is thrown).  With no verdict the body touches no shared
state; with verdict `d` the source first executes
`inputs_need_formatting = true` (no lock is held there), then calls
`printDiff`, which acquires `output_mutex`, writes the report and
releases the mutex when the `lock_guard` is destroyed. -/
def workerEvents (check : String → Option String) (f : String) : List Event :=
  match check f with
  | none => []
  | some d => [.setFlag, .lock, .printOut (printDiffMsg f d), .unlock]

/-- Pair each event of one worker's trace with whether that worker holds
`output_mutex` while the event executes (a `lock` event belongs to the
region it opens, an `unlock` to the region it closes). -/
def eventsWithHeld : List Event → Bool → List (Event × Bool)
  | [], _ => []
  | .lock :: rest, _ => (.lock, true) :: eventsWithHeld rest true
  | .unlock :: rest, held => (.unlock, held) :: eventsWithHeld rest false
  | e :: rest, held => (e, held) :: eventsWithHeld rest held

/-- Is this event an update of the shared flag? -/
def isSetFlag : Event → Bool
  | .setFlag => true
  | _ => false

/-- Is this event a write to the shared diagnostic stream? -/
def isPrintOut : Event → Bool
  | .printOut _ => true
  | _ => false

/-- Every update of the shared flag in the trace executes while the mutex
is held. -/
def flagUpdatesLocked (es : List Event) : Bool :=
  (eventsWithHeld es false).all fun p => !isSetFlag p.1 || p.2

/-- Every write to the shared diagnostic stream in the trace executes
while the mutex is held. -/
def printsLocked (es : List Event) : Bool :=
  (eventsWithHeld es false).all fun p => !isPrintOut p.1 || p.2

/-- The shared state of the parallel loop: the aggregate
`inputs_need_formatting` flag and the text written to standard output. -/
structure SharedState where
  flag : Bool
  output : String
deriving Repr, DecidableEq

/-- Effect of one atomic event on the shared state. -/
def applyEvent (s : SharedState) : Event → SharedState
  | .setFlag => { s with flag := true }
  | .printOut m => { s with output := s.output ++ m }
  | .lock => s
  | .unlock => s

/-- Run a schedule of atomic events over the shared state. -/
def runEvents (s : SharedState) : List Event → SharedState
  | [] => s
  | e :: rest => runEvents (applyEvent s e) rest

/-- `IsInterleaving ts sched` holds when `sched` is obtained by
interleaving the worker traces `ts`: at every point the scheduler picks
some worker `i` and executes its next pending event, until every trace is
exhausted.  Every schedule the OpenMP runtime can produce (including all
mutex-respecting ones) is of this shape. -/
inductive IsInterleaving : List (List Event) → List Event → Prop where
  | done (ts : List (List Event)) (h : ∀ t ∈ ts, t = []) : IsInterleaving ts []
  | step (ts : List (List Event)) (i : Nat) (e : Event) (tl : List Event)
      (sched : List Event) (hi : ts[i]? = some (e :: tl))
      (h : IsInterleaving (ts.set i tl) sched) :
      IsInterleaving ts (e :: sched)

theorem runEvents_flag (s : SharedState) (es : List Event) :
    (runEvents s es).flag = (s.flag || es.any isSetFlag) := by
  induction es generalizing s with
  | nil => simp [runEvents]
  | cons e rest ih =>
    rw [runEvents, ih, List.any_cons]
    cases e <;> simp [applyEvent, isSetFlag, Bool.or_assoc]

theorem any_of_set_cons (ts : List (List Event)) (i : Nat) (e : Event)
    (tl : List Event) (p : Event → Bool) (hi : ts[i]? = some (e :: tl)) :
    ts.any (fun t => t.any p) = (p e || (ts.set i tl).any fun t => t.any p) := by
  induction ts generalizing i with
  | nil => simp at hi
  | cons t ts ih =>
    cases i with
    | zero =>
      simp only [List.getElem?_cons_zero, Option.some_inj] at hi
      subst hi
      simp only [List.set, List.any_cons, Bool.or_assoc]
    | succ i =>
      simp only [List.getElem?_cons_succ] at hi
      simp only [List.set, List.any_cons, ih i hi]
      cases p e <;> cases t.any p <;> simp

theorem interleaving_any (ts : List (List Event)) (sched : List Event)
    (h : IsInterleaving ts sched) (p : Event → Bool) :
    sched.any p = ts.any fun t => t.any p := by
  induction h with
  | done ts h =>
    simp only [List.any_nil]
    symm
    rw [List.any_eq_false]
    intro t ht
    rw [h t ht]
    simp
  | step ts i e tl sched hi hint ih =>
    rw [List.any_cons, ih, any_of_set_cons ts i e tl p hi]

/-- After a complete interleaved run of the workers for `files`, the
shared flag is set exactly when some worker's check produced a verdict:
every flag write stores `true`, so no interleaving loses an update. -/
theorem interleaved_flag_iff (check : String → Option String)
    (files : List String) (sched : List Event)
    (h : IsInterleaving (files.map (workerEvents check)) sched) :
    (runEvents ⟨false, ""⟩ sched).flag = true ↔
      ∃ f ∈ files, ∃ d, check f = some d := by
  rw [runEvents_flag, Bool.false_or, interleaving_any _ _ h, List.any_eq_true]
  constructor
  · rintro ⟨t, ht, hany⟩
    rw [List.mem_map] at ht
    obtain ⟨f, hf, rfl⟩ := ht
    cases hc : check f with
    | none =>
      unfold workerEvents at hany
      rw [hc] at hany
      simp at hany
    | some d => exact ⟨f, hf, d, hc⟩
  · rintro ⟨f, hf, d, hd⟩
    refine ⟨workerEvents check f, List.mem_map_of_mem _ hf, ?_⟩
    unfold workerEvents
    rw [hd]
    simp [isSetFlag]

/-! ### Helper lemmas -/

theorem buildCmdCore_nil : buildCmdCore [] = [] := rfl

theorem range_flatMap_shift {γ : Type} (g : Nat → List γ) (n : Nat) :
    (List.range (n + 1)).flatMap g =
      g 0 ++ (List.range n).flatMap fun i => g (i + 1) := by
  rw [List.range_succ_eq_map, List.flatMap_cons, List.flatMap_map]

theorem buildCmdCore_cons (a : String) (as : List String) :
    buildCmdCore (a :: as) =
      (a.data ++ if 0 < as.length then [' '] else []) ++ buildCmdCore as := by
  show (List.range (a :: as).length).flatMap _ = _
  rw [List.length_cons, range_flatMap_shift]
  congr 1
  · simp only [List.getD, List.get?_cons_zero, Option.getD_some,
      Nat.add_lt_add_iff_right]
  · unfold buildCmdCore
    simp only [List.getD, List.get?_cons_succ, Nat.add_lt_add_iff_right]

theorem buildCmdCore_eq (a : String) (as : List String) :
    buildCmdCore (a :: as) = a.data ++ as.flatMap fun b => ' ' :: b.data := by
  induction as generalizing a with
  | nil => simp [buildCmdCore_cons, buildCmdCore_nil]
  | cons b as ih =>
    rw [buildCmdCore_cons, ih]
    simp

theorem intercalate_go_data (s : String) (as : List String) (acc : String) :
    (String.intercalate.go acc s as).data =
      acc.data ++ as.flatMap fun a => s.data ++ a.data := by
  induction as generalizing acc with
  | nil => simp [String.intercalate.go]
  | cons a as ih => simp [String.intercalate.go, ih]

theorem intercalate_data (s a : String) (as : List String) :
    (String.intercalate s (a :: as)).data =
      a.data ++ as.flatMap fun b => s.data ++ b.data := by
  simp [String.intercalate, intercalate_go_data]

theorem mainLoop_ok_flag (check : String → Except String (Option String))
    (files : List String) (flag flag' : Bool) (acc acc' : String)
    (h : mainLoop check files flag acc = .ok (flag', acc')) :
    flag' = true ↔
      flag = true ∨ ∃ f ∈ files, ∃ d, check f = .ok (some d) := by
  induction files generalizing flag acc with
  | nil =>
    rw [mainLoop] at h
    injection h with h
    injection h with h1 h2
    subst h1
    simp
  | cons g rest ih =>
    rw [mainLoop] at h
    cases hg : check g with
    | error e => rw [hg] at h; exact absurd h (by simp)
    | ok v =>
      cases v with
      | none =>
        rw [hg] at h
        rw [ih _ _ h]
        simp only [List.mem_cons]
        constructor
        · rintro (hf | ⟨f, hf, d, hd⟩)
          · exact Or.inl hf
          · exact Or.inr ⟨f, Or.inr hf, d, hd⟩
        · rintro (hf | ⟨f, rfl | hf, d, hd⟩)
          · exact Or.inl hf
          · rw [hg] at hd
            exact absurd hd (by simp)
          · exact Or.inr ⟨f, hf, d, hd⟩
      | some d =>
        rw [hg] at h
        rw [ih _ _ h]
        constructor
        · intro _
          exact Or.inr ⟨g, List.mem_cons_self g rest, d, hg⟩
        · intro _
          exact Or.inl rfl

theorem mainLoop_ok_total (check : String → Except String (Option String))
    (files : List String) (hok : ∀ f ∈ files, ∃ r, check f = .ok r)
    (flag : Bool) (acc : String) :
    ∃ flag' acc', mainLoop check files flag acc = .ok (flag', acc') := by
  induction files generalizing flag acc with
  | nil => exact ⟨flag, acc, rfl⟩
  | cons g rest ih =>
    obtain ⟨r, hr⟩ := hok g (List.mem_cons_self g rest)
    have hok' : ∀ f ∈ rest, ∃ r, check f = .ok r :=
      fun f hf => hok f (List.mem_cons_of_mem g hf)
    rw [mainLoop, hr]
    cases r with
    | none => exact ih hok' flag acc
    | some d => exact ih hok' true (acc ++ printDiffMsg g d)

theorem mainLoop_ne_ok_of_mem_error
    (check : String → Except String (Option String)) (files : List String)
    (f : String) (e : String) (hf : f ∈ files) (he : check f = .error e)
    (flag flag' : Bool) (acc acc' : String) :
    mainLoop check files flag acc ≠ .ok (flag', acc') := by
  induction files generalizing flag acc with
  | nil => exact absurd hf (List.not_mem_nil f)
  | cons g rest ih =>
    rw [mainLoop]
    cases hg : check g with
    | error e' => simp
    | ok v =>
      rcases List.mem_cons.mp hf with rfl | hf'
      · rw [hg] at he
        exact absurd he (by simp)
      · cases v with
        | none => exact ih hf' _ _
        | some d => exact ih hf' _ _

theorem parseLoop_exit_shape (exe_name : String) (cf : String)
    (positionals : List String) (args : List String) :
    ∀ (code : Int) (out err : String),
      parseLoop exe_name cf positionals args = .exit code out err →
      code = 1 ∧ out = helpText exe_name ∧
        ∃ a, err = "The option " ++ a ++ " requires an argument\n" ∨
          err = "Unknown options " ++ a ++ "\n" := by
  induction cf, positionals, args using parseLoop.induct with
  | exe_name => exact exe_name
  | case1 cf positionals =>
    intro code out err h
    simp [parseLoop] at h
  | case2 cf positionals rest =>
    intro code out err h
    rw [parseLoop.eq_def] at h
    simp at h
  | case3 cf positionals a h1 h2 v rest' ih =>
    intro code out err h
    rw [parseLoop.eq_def] at h
    simp only [if_neg h1, if_pos h2] at h
    exact ih code out err h
  | case4 cf positionals a h1 h2 =>
    intro code out err h
    rw [parseLoop.eq_def] at h
    simp only [if_neg h1, if_pos h2] at h
    cases h
    exact ⟨rfl, rfl, a, Or.inl rfl⟩
  | case5 cf positionals a rest h1 h2 h3 ih =>
    intro code out err h
    rw [parseLoop.eq_def] at h
    simp only [if_neg h1, if_neg h2, if_pos h3] at h
    exact ih code out err h
  | case6 cf positionals a rest h1 h2 h3 h4 ih =>
    intro code out err h
    rw [parseLoop.eq_def] at h
    simp only [if_neg h1, if_neg h2, if_neg h3, if_pos h4] at h
    exact ih code out err h
  | case7 cf positionals a rest h1 h2 h3 h4 h5 =>
    intro code out err h
    rw [parseLoop.eq_def] at h
    simp only [if_neg h1, if_neg h2, if_neg h3, if_neg h4, if_pos h5] at h
    cases h
    exact ⟨rfl, rfl, a, Or.inr rfl⟩
  | case8 cf positionals a rest h1 h2 h3 h4 h5 ih =>
    intro code out err h
    rw [parseLoop.eq_def] at h
    simp only [if_neg h1, if_neg h2, if_neg h3, if_neg h4, if_neg h5] at h
    exact ih code out err h

/-! ### The claims -/

/-- C1: for every run that parses its arguments and whose per-file checks
all complete without an exception, the process exit code is 2 exactly when
at least one discovered file produced a verdict (format mismatch or
nonzero formatter status, both surfacing as an `.ok (some _)` check
result), and 0 exactly when no discovered file produced a verdict. -/
theorem c1_exit_two_iff_any_verdict (resolve : String → FsEntry)
    (readFile : ReadEnv) (spawn : SpawnEnv) (exe_name : String)
    (args : List String) (settings : Settings)
    (hparse : parseSettings exe_name args = .ok settings)
    (hok : ∀ f ∈ settings.inputs.flatMap fun p => listSrcFiles (resolve p),
      ∃ r, getFileFormatDiff readFile spawn f settings.clang_format_exe =
        .ok r) :
    ∃ (code : Int) (out : String),
      fullProgram resolve readFile spawn exe_name args =
        .exited code out "" ∧
      ((code = 2) ↔
        ∃ f ∈ settings.inputs.flatMap fun p => listSrcFiles (resolve p),
          ∃ d, getFileFormatDiff readFile spawn f settings.clang_format_exe =
            .ok (some d)) ∧
      ((code = 0) ↔
        ¬ ∃ f ∈ settings.inputs.flatMap fun p => listSrcFiles (resolve p),
          ∃ d, getFileFormatDiff readFile spawn f settings.clang_format_exe =
            .ok (some d)) := by
  obtain ⟨flag', acc', hml⟩ := mainLoop_ok_total _ _ hok false ""
  have hiff := mainLoop_ok_flag _ _ _ _ _ _ hml
  simp only [Bool.false_eq_true, false_or] at hiff
  refine ⟨if flag' then 2 else 0, acc', ?_, ?_, ?_⟩
  · simp [fullProgram, hparse, hml]
  · constructor
    · intro hcode
      cases hfl : flag' with
      | true => exact hiff.mp hfl
      | false =>
        rw [hfl] at hcode
        norm_num at hcode
    · intro hex
      rw [hiff.mpr hex]
      norm_num
  · constructor
    · intro hcode hex
      rw [hiff.mpr hex] at hcode
      norm_num at hcode
    · intro hnex
      have hfl : flag' = false := by
        cases hfl : flag' with
        | true => exact absurd (hiff.mp hfl) hnex
        | false => rfl
      rw [hfl]
      norm_num

/-- C1 witness: a single input resolving to one `.cpp` file whose
formatter output differs from its content makes the run exit 2, and the
exit-code equivalences hold at that instance. -/
theorem c1_witness :
    parseSettings "prog" ["in"] =
      .ok { clang_format_exe := "clang-format", inputs := ["in"] } ∧
    (∀ f ∈ (({ clang_format_exe := "clang-format", inputs := ["in"] } :
        Settings)).inputs.flatMap fun p =>
          listSrcFiles ((fun _ => FsEntry.file "in" (some ".cpp")) p),
      ∃ r, getFileFormatDiff (fun _ => some "x") (fun _ => .stream "y" 0) f
        "clang-format" = .ok r) ∧
    (∃ (code : Int) (out : String),
      fullProgram (fun _ => FsEntry.file "in" (some ".cpp"))
        (fun _ => some "x") (fun _ => .stream "y" 0) "prog" ["in"] =
          .exited code out "" ∧
      ((code = 2) ↔
        ∃ f ∈ (({ clang_format_exe := "clang-format", inputs := ["in"] } :
          Settings)).inputs.flatMap fun p =>
            listSrcFiles ((fun _ => FsEntry.file "in" (some ".cpp")) p),
          ∃ d, getFileFormatDiff (fun _ => some "x")
            (fun _ => .stream "y" 0) f "clang-format" = .ok (some d)) ∧
      ((code = 0) ↔
        ¬ ∃ f ∈ (({ clang_format_exe := "clang-format", inputs := ["in"] } :
          Settings)).inputs.flatMap fun p =>
            listSrcFiles ((fun _ => FsEntry.file "in" (some ".cpp")) p),
          ∃ d, getFileFormatDiff (fun _ => some "x")
            (fun _ => .stream "y" 0) f "clang-format" = .ok (some d))) := by
  have h1 : parseSettings "prog" ["in"] =
      .ok { clang_format_exe := "clang-format", inputs := ["in"] } := rfl
  have h2 : ∀ f ∈ (["in"] : List String).flatMap fun p =>
        listSrcFiles ((fun _ => FsEntry.file "in" (some ".cpp")) p),
      ∃ r, getFileFormatDiff (fun _ => some "x") (fun _ => .stream "y" 0) f
        "clang-format" = .ok r := by
    intro f hf
    simp only [List.flatMap_cons, List.flatMap_nil] at hf
    simp [listSrcFiles, listSrcFilesLoop, extAllowed] at hf
    subst hf
    exact ⟨some ("in" ++ " changes when formatted."), rfl⟩
  exact ⟨h1, h2, c1_exit_two_iff_any_verdict _ _ _ "prog" ["in"] _ h1 h2⟩

/-- C2: File Discovery returns exactly the non-directory files reachable
under the root whose extension is in the fixed allow-list, and no others;
since `extAllowed none = false`, an entry with no extension is skipped
silently and never appears in the result. -/
theorem c2_discovery_filter (root : FsEntry) (q : String) :
    (q ∈ listSrcFiles root ↔
      ∃ e, ReachesFile root q e ∧ extAllowed e = true) ∧
    extAllowed none = false := by
  refine ⟨?_, rfl⟩
  rw [listSrcFiles, mem_listSrcFilesLoop]
  simp

/-- C5: for every non-empty token sequence, the command buffer handed to
the shell-spawning primitive is exactly the tokens joined in order with a
single space between consecutive tokens — no quoting or escaping —
followed by the terminating NUL byte. -/
theorem c5_cmd_is_space_joined_tokens (args : List String) (h : args ≠ []) :
    buildCmd args = (String.intercalate " " args).data ++ [Char.ofNat 0] := by
  obtain ⟨a, as, rfl⟩ := List.exists_cons_of_ne_nil h
  have he : (fun b : String => (" ").data ++ b.data) =
      fun b : String => ' ' :: b.data := by
    funext b; rfl
  rw [buildCmd, buildCmdCore_eq, intercalate_data, he]

/-- C5 witness: the join evaluated on a concrete argument vector. -/
theorem c5_witness :
    (["clang-format", "a.cpp"] : List String) ≠ [] ∧
    buildCmd ["clang-format", "a.cpp"] =
      (String.intercalate " " ["clang-format", "a.cpp"]).data ++
        [Char.ofNat 0] :=
  ⟨by decide, c5_cmd_is_space_joined_tokens ["clang-format", "a.cpp"] (by decide)⟩

/-- C3: when the file read succeeds and the formatter exits with status 0,
the checker returns no verdict exactly when the captured output equals the
file contents byte for byte, and a verdict naming the file's path when
they differ. -/
theorem c3_verdict_iff_output_differs (readFile : ReadEnv) (spawn : SpawnEnv)
    (file exe contents out : String)
    (hread : readFile file = some contents)
    (hspawn : spawn (buildCmd [exe, file]) = .stream out 0) :
    (getFileFormatDiff readFile spawn file exe = .ok none ↔ out = contents) ∧
    (out ≠ contents →
      getFileFormatDiff readFile spawn file exe =
        .ok (some (file ++ " changes when formatted."))) := by
  have hrun : runCmdForOutput spawn [exe, file] =
      .ok { output := out, return_status := 0 } := by
    simp [runCmdForOutput, hspawn]
  simp only [getFileFormatDiff, hread, hrun]
  by_cases hc : contents = out
  · subst hc
    simp
  · constructor
    · simp only [if_neg (by decide : ¬((0 : Int) ≠ 0)), if_pos hc]
      constructor
      · intro hcontra
        exact absurd hcontra (by simp)
      · intro hoc
        exact absurd hoc.symm hc
    · intro _
      simp [hc]

/-- C3 witness: a file whose formatter output differs from its content. -/
theorem c3_witness :
    ((fun _ : String => some "x") "a.cpp" = some "x") ∧
    ((fun _ : List Char => SpawnOutcome.stream "y" 0)
      (buildCmd ["fmt", "a.cpp"]) = .stream "y" 0) ∧
    ((getFileFormatDiff (fun _ => some "x") (fun _ => .stream "y" 0)
        "a.cpp" "fmt" = .ok none ↔ "y" = "x") ∧
     ("y" ≠ "x" →
      getFileFormatDiff (fun _ => some "x") (fun _ => .stream "y" 0)
        "a.cpp" "fmt" = .ok (some ("a.cpp" ++ " changes when formatted.")))) :=
  ⟨rfl, rfl, c3_verdict_iff_output_differs _ _ "a.cpp" "fmt" "x" "y" rfl rfl⟩

/-- C4: when the file read succeeds and the formatter exits with a nonzero
status, the checker's verdict embeds that status code and the invoked
command (the space-joined tokens), with no constraint relating the
captured output and the file contents (both quantified independently). -/
theorem c4_nonzero_status_message (readFile : ReadEnv) (spawn : SpawnEnv)
    (file exe contents out : String) (st : Int)
    (hread : readFile file = some contents)
    (hspawn : spawn (buildCmd [exe, file]) = .stream out st)
    (hst : st ≠ 0) :
    getFileFormatDiff readFile spawn file exe =
      .ok (some ("Got return code " ++ toString st ++ " when executing " ++
        exe ++ " " ++ file)) ∧
    exe ++ " " ++ file = String.intercalate " " [exe, file] := by
  refine ⟨?_, rfl⟩
  have hrun : runCmdForOutput spawn [exe, file] =
      .ok { output := out, return_status := st } := by
    simp [runCmdForOutput, hspawn]
  simp only [getFileFormatDiff, hread, hrun]
  rw [if_pos hst]

/-- C4 witness: formatter status 3 on a file whose output happens to equal
its content — the error-class verdict is produced anyway. -/
theorem c4_witness :
    ((fun _ : String => some "x") "a.cpp" = some "x") ∧
    ((fun _ : List Char => SpawnOutcome.stream "x" 3)
      (buildCmd ["fmt", "a.cpp"]) = .stream "x" 3) ∧
    ((3 : Int) ≠ 0) ∧
    (getFileFormatDiff (fun _ => some "x") (fun _ => .stream "x" 3)
        "a.cpp" "fmt" =
      .ok (some ("Got return code " ++ toString (3 : Int) ++
        " when executing " ++ "fmt" ++ " " ++ "a.cpp")) ∧
     "fmt" ++ " " ++ "a.cpp" = String.intercalate " " ["fmt", "a.cpp"]) :=
  ⟨rfl, rfl, by decide,
   c4_nonzero_status_message _ _ "a.cpp" "fmt" "x" "x" 3 rfl rfl (by decide)⟩

/-- C6: when `popen` returns no stream the runner raises the
`Unable to run …` exception (an `Except.error` that no caller catches, so
the run never completes normally), while a successfully launched process
returning any status — nonzero included — yields a normal `CmdResult`. -/
theorem c6_launch_failure_vs_exit_status (spawn : SpawnEnv)
    (args : List String) (h : args ≠ []) :
    (spawn (buildCmd args) = .noStream →
      runCmdForOutput spawn args =
        .error ("Unable to run " ++ String.mk (buildCmd args).dropLast)) ∧
    (∀ (out : String) (st : Int), spawn (buildCmd args) = .stream out st →
      runCmdForOutput spawn args = .ok { output := out, return_status := st }) ∧
    (∀ (readFile : ReadEnv) (exe f contents : String) (files : List String)
        (flag flag' : Bool) (acc acc' : String),
      readFile f = some contents → args = [exe, f] →
      spawn (buildCmd args) = .noStream → f ∈ files →
      mainLoop (fun g => getFileFormatDiff readFile spawn g exe)
        files flag acc ≠ .ok (flag', acc')) := by
  have hne : args.isEmpty = false := by
    cases args with
    | nil => exact absurd rfl h
    | cons a as => rfl
  refine ⟨?_, ?_, ?_⟩
  · intro hs
    simp [runCmdForOutput, hne, hs]
  · intro out st hs
    simp [runCmdForOutput, hne, hs]
  · intro readFile exe f contents files flag flag' acc acc' hread hargs hs hmem
    subst hargs
    have herr : getFileFormatDiff readFile spawn f exe =
        .error ("Unable to run " ++ String.mk (buildCmd [exe, f]).dropLast) := by
      simp only [getFileFormatDiff, hread]
      simp [runCmdForOutput, hs]
    exact mainLoop_ne_ok_of_mem_error _ files f _ hmem herr flag flag' acc acc'

/-- C6 witness: a failing launch produces the error; a launched process
with nonzero status produces a normal result. -/
theorem c6_witness :
    runCmdForOutput (fun _ => .noStream) ["fmt", "a.cpp"] =
      .error ("Unable to run " ++
        String.mk (buildCmd ["fmt", "a.cpp"]).dropLast) ∧
    runCmdForOutput (fun _ => .stream "out" 3) ["fmt", "a.cpp"] =
      .ok { output := "out", return_status := 3 } :=
  ⟨(c6_launch_failure_vs_exit_status (fun _ => .noStream) _ (by decide)).1 rfl,
   (c6_launch_failure_vs_exit_status (fun _ => .stream "out" 3) _
      (by decide)).2.1 "out" 3 rfl⟩

set_option maxRecDepth 8000 in
/-- C7 counterexample: on the unknown option `--bogus` the program exits
with code 1, but the usage/help text (the text containing `Usage`) is
written to standard output, not to the error stream: the error stream
carries only `Unknown options --bogus`, which does not contain the usage
text.  The claim as stated — usage/help printed to the error stream — is
therefore false. -/
theorem c7_counterexample :
    parseSettings "prog" ["--bogus"] =
      .exit 1 (helpText "prog") "Unknown options --bogus\n" ∧
    strContainsSub "Unknown options --bogus\n" "Usage" = false ∧
    strContainsSub (helpText "prog") "Usage" = true := by
  refine ⟨rfl, ?_, ?_⟩ <;> decide

/-- C7 (amended): for every invocation with an unknown option or an option
missing its required value, the program terminates immediately with exit
code 1, printing a diagnostic naming the offending option to the error
stream and the usage/help text to the standard output stream, without
attempting any file discovery (the run's outcome is independent of the
filesystem, file-read and process environments). -/
theorem c7_parse_error_exits_one (exe_name : String) (args : List String)
    (code : Int) (out err : String)
    (h : parseSettings exe_name args = .exit code out err) :
    code = 1 ∧ out = helpText exe_name ∧
      (∃ a, err = "The option " ++ a ++ " requires an argument\n" ∨
        err = "Unknown options " ++ a ++ "\n") ∧
      ∀ (resolve : String → FsEntry) (readFile : ReadEnv) (spawn : SpawnEnv),
        fullProgram resolve readFile spawn exe_name args =
          .exited code out err := by
  obtain ⟨h1, h2, h3⟩ :=
    parseLoop_exit_shape exe_name "clang-format" [] args code out err h
  refine ⟨h1, h2, h3, ?_⟩
  intro resolve readFile spawn
  simp [fullProgram, h]

/-- C7 witness: the amended claim evaluated at the unknown option
`--bogus`. -/
theorem c7_witness :
    parseSettings "prog" ["--bogus"] =
      .exit 1 (helpText "prog") "Unknown options --bogus\n" ∧
    ((1 : Int) = 1 ∧ helpText "prog" = helpText "prog" ∧
      (∃ a, "Unknown options --bogus\n" =
          "The option " ++ a ++ " requires an argument\n" ∨
        "Unknown options --bogus\n" = "Unknown options " ++ a ++ "\n") ∧
      ∀ (resolve : String → FsEntry) (readFile : ReadEnv) (spawn : SpawnEnv),
        fullProgram resolve readFile spawn "prog" ["--bogus"] =
          .exited 1 (helpText "prog") "Unknown options --bogus\n") :=
  ⟨rfl, c7_parse_error_exits_one "prog" ["--bogus"] 1 (helpText "prog")
    "Unknown options --bogus\n" rfl⟩

/-- C8: when the file cannot be opened the checker raises the
`Unable to open src file …` exception before the formatter is ever
consulted (the result is the same for every spawn environment), and the
error propagates: no run over a file list containing that file completes
normally. -/
theorem c8_read_failure_aborts (readFile : ReadEnv) (file : String)
    (hread : readFile file = none) :
    (∀ (spawn : SpawnEnv) (exe : String),
      getFileFormatDiff readFile spawn file exe =
        .error ("Unable to open src file " ++ file)) ∧
    (∀ (spawn : SpawnEnv) (exe : String) (files : List String)
        (flag flag' : Bool) (acc acc' : String), file ∈ files →
      mainLoop (fun f => getFileFormatDiff readFile spawn f exe)
        files flag acc ≠ .ok (flag', acc')) := by
  have hch : ∀ (spawn : SpawnEnv) (exe : String),
      getFileFormatDiff readFile spawn file exe =
        .error ("Unable to open src file " ++ file) := by
    intro spawn exe
    simp [getFileFormatDiff, hread]
  refine ⟨hch, ?_⟩
  intro spawn exe files flag flag' acc acc' hmem
  exact mainLoop_ne_ok_of_mem_error _ files file _ hmem (hch spawn exe)
    flag flag' acc acc'

/-- C8 witness: an unreadable file aborts the run whatever the spawn
environment does. -/
theorem c8_witness :
    ((fun _ : String => (none : Option String)) "a.cpp" = none) ∧
    ((∀ (spawn : SpawnEnv) (exe : String),
      getFileFormatDiff (fun _ => none) spawn "a.cpp" exe =
        .error ("Unable to open src file " ++ "a.cpp")) ∧
     (∀ (spawn : SpawnEnv) (exe : String) (files : List String)
        (flag flag' : Bool) (acc acc' : String), "a.cpp" ∈ files →
      mainLoop (fun f => getFileFormatDiff (fun _ => none) spawn f exe)
        files flag acc ≠ .ok (flag', acc'))) :=
  ⟨rfl, c8_read_failure_aborts (fun _ => none) "a.cpp" rfl⟩

/-- C9: the claim fails on the code.  For a worker whose check yields a
verdict (here computed by `getFileFormatDiff` on a file whose formatter
output differs from its content), the `inputs_need_formatting = true`
update executes while `output_mutex` is NOT held — only the verdict write
inside `printDiff` is in the mutual-exclusion region.  The source flips
the flag before calling `printDiff`, so the report-and-flip is not atomic
and the flag write is an unsynchronized concurrent store. -/
theorem c9_flag_update_outside_mutex :
    (getFileFormatDiff (fun _ => some "x") (fun _ => .stream "y" 0)
        "a.cpp" "clang-format" =
      .ok (some ("a.cpp" ++ " changes when formatted."))) ∧
    flagUpdatesLocked (workerEvents
      (fun _ => some ("a.cpp" ++ " changes when formatted.")) "a.cpp") =
      false ∧
    printsLocked (workerEvents
      (fun _ => some ("a.cpp" ++ " changes when formatted.")) "a.cpp") =
      true := by
  refine ⟨rfl, ?_, ?_⟩ <;> decide

/-- C10: with zero positional inputs (and no option errors) the program
performs no discovery and no checks, prints nothing, and exits 0; the
outcome is the same for every filesystem, file-read and spawn
environment. -/
theorem c10_empty_inputs_exits_zero (resolve : String → FsEntry)
    (readFile : ReadEnv) (spawn : SpawnEnv) (exe_name : String)
    (args : List String) (settings : Settings)
    (hparse : parseSettings exe_name args = .ok settings)
    (hinputs : settings.inputs = []) :
    fullProgram resolve readFile spawn exe_name args = .exited 0 "" "" := by
  simp [fullProgram, hparse, hinputs, mainLoop]

/-- C10 witness: the empty command line parses to empty inputs and the
run exits 0 even over hostile environments. -/
theorem c10_witness :
    parseSettings "prog" [] =
      .ok { clang_format_exe := "clang-format", inputs := [] } ∧
    ({ clang_format_exe := "clang-format", inputs := [] } : Settings).inputs
      = [] ∧
    fullProgram (fun _ => FsEntry.file "z" none) (fun _ => none)
      (fun _ => .noStream) "prog" [] = .exited 0 "" "" :=
  ⟨rfl, rfl, c10_empty_inputs_exits_zero _ _ _ "prog" [] _ rfl rfl⟩

end ClangFormatHook
